import Mathlib

/-!
# Verification of `ContextMemory` `VectorStore` (src/include/ContextMemory/vector_store.h)

Shallow embedding of the mapping/index-coupling layer of the vector store.

Modelling conventions, matched against the C++ source:

* `uint64_t` user ids, `hnswlib::labeltype` labels, and sizes are modelled as `Nat`;
  where byte-exact file layout matters, widths are made explicit (see the
  persistence section below).
* The hnswlib index (`hnswlib::HierarchicalNSW`) is the external collaborator.
  Its observable state relevant to the claims is the multiset of inserted
  `(label, vector)` pairs, modelled as a list (`index_elems`, most recent first);
  `getCurrentElementCount()` is its length.  `addPoint` may throw; failures of
  individual `addPoint`/`resizeIndex` calls are modelled by explicit Boolean
  oracles keyed by the batch position of the call (`insertFails`, `resizeFails`),
  since the library's failure behaviour is opaque to this layer.
  `searchKnnCloserFirst` output is passed to the search model as an explicit
  list of `(label, distance)` pairs.
* Vector components are modelled as `ℚ` (the store never computes on them;
  it only measures lengths and hands them to the index).
* `std::unordered_map` (`id_to_label_`) is an association list with one entry
  per key; `operator[]` assignment is `mapInsert` (replace-or-insert).
* `std::vector<uint64_t>` (`label_to_id_`) is a `List Nat`; `resize` is
  `resizeVec` (truncate or zero-extend); `v[i] = x` with `i ≥ v.size()` is
  out of bounds in C++, so the embedding performs no write there and raises
  a ghost flag `oob` recording that an out-of-range access happened.
  Likewise an out-of-range read `v[i]` in search raises the ghost flag.
-/

set_option maxRecDepth 100000

/-- `VectorStore::LABEL_RESERVE_INCREMENT_SIZE` (vector_store.h:80). -/
def LABEL_RESERVE_INCREMENT_SIZE : Nat := 1000

/-- Lookup in an association list, first entry wins
(models `std::unordered_map::find`). -/
def mapFind (m : List (Nat × Nat)) (k : Nat) : Option Nat :=
  match m with
  | [] => none
  | (a, b) :: rest => if a = k then some b else mapFind rest k

/-- `std::unordered_map` `operator[]` assignment: replace the entry for `k`
if present, otherwise insert it.  The map keeps one entry per key. -/
def mapInsert (m : List (Nat × Nat)) (k v : Nat) : List (Nat × Nat) :=
  (k, v) :: m.filter (fun p => p.1 ≠ k)

/-- `std::vector::resize n`: truncate, or extend with value-initialised (`0`)
entries. -/
def resizeVec (v : List Nat) (n : Nat) : List Nat :=
  if n ≤ v.length then v.take n else v ++ List.replicate (n - v.length) 0

/-- The mutable state of `VectorStore<SIM_POLICY>` (vector_store.h:77-106),
together with the observable state of the owned hnswlib index and a ghost
out-of-bounds flag (see the module docstring). -/
structure VectorStore where
  dim : Nat
  max_elements : Nat
  M : Nat
  ef_construction : Nat
  ef : Nat
  allow_replace_deleted : Bool
  /-- forward map `id_to_label_` : user id → dense label -/
  id_to_label : List (Nat × Nat)
  /-- reverse table `label_to_id_` : position = label, value = user id -/
  label_to_id : List Nat
  /-- `next_label_` -/
  next_label : Nat
  /-- `current_resized_label_vec_size_` -/
  current_resized_label_vec_size : Nat
  /-- elements of the owned hnswlib index, most recent first -/
  index_elems : List (Nat × List ℚ)
  /-- ghost flag: some `label_to_id_[i]` access with `i ≥ label_to_id_.size()`
  has occurred (undefined behaviour in the C++) -/
  oob : Bool
deriving DecidableEq

/-- The fresh-store constructor `VectorStore(index_path, dim, max_elements)`
(vector_store.h:125-144): empty mapping, empty index, default HNSW
parameters `M = 16`, `ef_construction = 200`, `ef = 10`,
`allow_replace_deleted = true`. -/
def mkVectorStore (dim max_elements : Nat) : VectorStore where
  dim := dim
  max_elements := max_elements
  M := 16
  ef_construction := 200
  ef := 10
  allow_replace_deleted := true
  id_to_label := []
  label_to_id := []
  next_label := 0
  current_resized_label_vec_size := LABEL_RESERVE_INCREMENT_SIZE
  index_elems := []
  oob := false

/-- Outcome of `add_vector`: normal return or one of the `std::runtime_error`
throws (vector_store.h:216-221), or an exception propagated from
`index_->addPoint`. -/
inductive AddOutcome where
  | ok
  | dimensionMismatch
  | duplicateIdentifier
  | indexError
deriving DecidableEq

/-- `label_to_id_[label] = uid` (a raw `std::vector` element assignment).
In range it writes; out of range it is undefined behaviour in C++, modelled
as no write plus the ghost `oob` flag. -/
def setReverse (s : VectorStore) (label uid : Nat) : VectorStore :=
  { s with
    label_to_id := s.label_to_id.set label uid
    oob := s.oob || decide (s.label_to_id.length ≤ label) }

/-- `VectorStore::add_vector` (vector_store.h:213-243).
`insertFails` models `index_->addPoint` throwing.  The state returned is the
state observable after the call, also when the call threw: validation throws
happen before any mutation; an `addPoint` throw happens after the capacity
and reverse-table resizes. -/
def add_vector (s : VectorStore) (user_id : Nat) (vec : List ℚ)
    (insertFails : Bool) : AddOutcome × VectorStore :=
  if vec.length ≠ s.dim then
    (.dimensionMismatch, s)
  else if (mapFind s.id_to_label user_id).isSome then
    (.duplicateIdentifier, s)
  else
    -- Auto-resize HNSW index if we're approaching capacity
    let s1 := if s.max_elements ≤ s.next_label
      then { s with max_elements := s.max_elements * 2 } else s
    -- resize label_to_id_ if needed
    let s2 := if s1.label_to_id.length ≤ s1.next_label
      then { s1 with
        label_to_id := resizeVec s1.label_to_id
          (s1.next_label + LABEL_RESERVE_INCREMENT_SIZE) }
      else s1
    if insertFails then
      (.indexError, s2)
    else
      let s3 := { s2 with index_elems := (s2.next_label, vec) :: s2.index_elems }
      let s4 := { s3 with id_to_label := mapInsert s3.id_to_label user_id s3.next_label }
      let s5 := setReverse s4 s4.next_label user_id
      (.ok, { s5 with next_label := s5.next_label + 1 })

/-- The `for (auto &point : batch)` loop of `try_add_vector_batch`
(vector_store.h:299-334).  `i` is the position of the current item in the
batch (the key of the failure oracles); `acc` is `added_points`. -/
def batchLoop (validate : Bool) (insertFails resizeFails : Nat → Bool) :
    Nat → VectorStore → List Nat → List (Nat × List ℚ) → VectorStore × List Nat
  | _, s, acc, [] => (s, acc)
  | i, s, acc, (user_id, vec) :: rest =>
    if s.max_elements ≤ s.next_label ∧ resizeFails i = true then
      -- If resize fails, stop adding more vectors (`break`)
      (s, acc)
    else
      let s1 := if s.max_elements ≤ s.next_label
        then { s with max_elements := s.max_elements * 2 } else s
      if validate = true ∧
          ((mapFind s1.id_to_label user_id).isSome ∨ vec.length ≠ s1.dim) then
        -- skip (`continue`) this item
        batchLoop validate insertFails resizeFails (i + 1) s1 acc rest
      else if insertFails i then
        -- `catch (...) { continue; }` around addPoint and the commits
        batchLoop validate insertFails resizeFails (i + 1) s1 acc rest
      else
        let s2 := { s1 with index_elems := (s1.next_label, vec) :: s1.index_elems }
        let s3 := { s2 with id_to_label := mapInsert s2.id_to_label user_id s2.next_label }
        let s4 := setReverse s3 s3.next_label user_id
        let s5 := { s4 with next_label := s4.next_label + 1 }
        batchLoop validate insertFails resizeFails (i + 1) s5 (acc ++ [user_id]) rest

/-- `VectorStore::try_add_vector_batch` (vector_store.h:284-336).
Returns the final state and `added_points`. -/
def try_add_vector_batch (s : VectorStore) (batch : List (Nat × List ℚ))
    (validate : Bool) (insertFails resizeFails : Nat → Bool) :
    VectorStore × List Nat :=
  if batch.isEmpty then (s, [])
  else
    -- resize label_to_id_ if needed (done once, at entry)
    let s0 := if s.label_to_id.length ≤ s.next_label
      then { s with
        label_to_id := resizeVec s.label_to_id
          (s.next_label + batch.length + LABEL_RESERVE_INCREMENT_SIZE) }
      else s
    batchLoop validate insertFails resizeFails 0 s0 [] batch

/-- `VectorStore::cleanMappings` (vector_store.h:441-447): empties both
mapping structures and resets the label counter; does not touch the index. -/
def cleanMappings (s : VectorStore) : VectorStore :=
  { s with label_to_id := [], id_to_label := [], next_label := 0 }

/-- `VectorStore::SearchResult` (vector_store.h:342-345).  Both fields are
`uint64_t` in the C++; `distance` is assigned from the index's floating-point
distance, so the assignment truncates. -/
structure SearchResult where
  user_id : Nat
  distance : Nat
deriving DecidableEq

/-- The implicit conversion of a nonnegative floating-point distance to the
`uint64_t` field `SearchResult::distance` (vector_store.h:394): fractional
part discarded. -/
def ratToUInt64 (q : ℚ) : Nat := (Int.floor q).toNat % 2 ^ 64

/-- The result-translation loop of `search_vectors` (vector_store.h:392-397):
for each `(label, distance)` pair returned by the index, read
`label_to_id_[label]` and truncate the distance.  The Bool is the ghost
out-of-range flag for the reverse-table reads (out of range the C++ read is
undefined behaviour; the model returns `0` and raises the flag). -/
def translateKnn (s : VectorStore) : List (Nat × ℚ) → List SearchResult × Bool
  | [] => ([], false)
  | (label, dist) :: rest =>
    let tail := translateKnn s rest
    (⟨s.label_to_id.getD label 0, ratToUInt64 dist⟩ :: tail.1,
      (decide (s.label_to_id.length ≤ label) || tail.2))

/-- `VectorStore::search_vectors` (vector_store.h:376-400).  `knn` is the
output of `index_->searchKnnCloserFirst(vector.data(), k)`: an ordered
closest-first list of `(label, distance)` pairs produced by the external
index. -/
def search_vectors (s : VectorStore) (query : List ℚ)
    (knn : List (Nat × ℚ)) : Except String (List SearchResult × Bool) :=
  if query.length ≠ s.dim then
    .error "Query vector dimension mismatch"
  else
    .ok (translateKnn s knn)

/-! ## Persistence

The `.hnsw.map` artifact is written with 8-byte-aligned `uint64_t` writes
only, so it is modelled at the granularity of 64-bit words (`List Nat`,
one entry per `uint64_t` written).  The `.hnsw.meta` artifact mixes 4-byte
fields, 8-byte writes and a 1-byte write, so it is modelled byte-exactly. -/

/-- The 4 little-endian bytes of a 32-bit field. -/
def le32 (n : Nat) : List Nat :=
  [n % 256, n / 256 % 256, n / 65536 % 256, n / 16777216 % 256]

/-- The 8 little-endian bytes of a 64-bit field. -/
def le64 (n : Nat) : List Nat := le32 (n % 4294967296) ++ le32 (n / 4294967296)

/-- Object representation of a C++ `bool`. -/
def boolByte (b : Bool) : Nat := if b then 1 else 0

/-- Read a 32-bit little-endian value from the first 4 bytes. -/
def readLE32 (bs : List Nat) : Nat :=
  bs.getD 0 0 + 256 * bs.getD 1 0 + 65536 * bs.getD 2 0 + 16777216 * bs.getD 3 0

/-- Read a 64-bit little-endian value from the first 8 bytes. -/
def readLE64 (bs : List Nat) : Nat :=
  readLE32 bs + 4294967296 * readLE32 (bs.drop 4)

/-- `VectorStore::save_metadata_unlocked` (vector_store.h:523-542), modelled
byte-exactly for the platform the code targets (little-endian, 4-byte `int`,
8-byte `size_t`, the `bool allow_replace_deleted_` directly after `ef_`
followed by 3 padding bytes).  Each
`metadataFile.write(reinterpret_cast<const char*>(&field), sizeof(uint64_t))`
call emits 8 bytes starting at the address of a 4-byte `int` field, so it
emits that field AND the field that follows it in memory.  `pad` is the list
of 3 indeterminate padding bytes after `allow_replace_deleted_` that the
fifth write also emits. -/
def save_metadata_bytes (s : VectorStore) (pad : List Nat) : List Nat :=
  (le32 s.dim ++ le32 s.max_elements)                          -- write(&dim_, 8)
    ++ (le32 s.max_elements ++ le32 s.M)                       -- write(&max_elements_, 8)
    ++ (le32 s.M ++ le32 s.ef_construction)                    -- write(&M_, 8)
    ++ (le32 s.ef_construction ++ le32 s.ef)                   -- write(&ef_construction_, 8)
    ++ (le32 s.ef ++ [boolByte s.allow_replace_deleted] ++ pad) -- write(&ef_, 8)
    ++ [boolByte s.allow_replace_deleted]                      -- write(&allow_replace_deleted_, 1)
    ++ le64 s.current_resized_label_vec_size                   -- write(&current_resized_..., 8)

/-- The fields recovered by `VectorStore::load_index_metadata`
(vector_store.h:556-572).  Each `read(..., sizeof(uint64_t))` consumes 8
bytes of the file and stores them at the address of a 4-byte `int` field,
clobbering the following field as well; the value a field ends up with is
the one left by the LAST read that touched it.  `dim_` keeps bytes 0-3,
`max_elements_` keeps bytes 8-11, `M_` bytes 16-19, `ef_construction_`
bytes 24-27, `ef_` bytes 32-35; `allow_replace_deleted_` is overwritten by
byte 36 and then by the 1-byte read of byte 40;
`current_resized_label_vec_size_` takes bytes 41-48. -/
structure MetaFields where
  dim : Nat
  max_elements : Nat
  M : Nat
  ef_construction : Nat
  ef : Nat
  allow_replace_deleted : Bool
  current_resized_label_vec_size : Nat
deriving DecidableEq

/-- `VectorStore::load_index_metadata` (vector_store.h:556-572); see
`MetaFields` for the byte accounting. -/
def load_index_metadata (bs : List Nat) : MetaFields where
  dim := readLE32 bs
  max_elements := readLE32 (bs.drop 8)
  M := readLE32 (bs.drop 16)
  ef_construction := readLE32 (bs.drop 24)
  ef := readLE32 (bs.drop 32)
  allow_replace_deleted := bs.getD 40 0 != 0
  current_resized_label_vec_size := readLE64 (bs.drop 41)

/-- The forward-map entries as written by the save loop of
`save_mappings_unlocked` (`u64 user_id, u64 label` per entry). -/
def pairWords : List (Nat × Nat) → List Nat
  | [] => []
  | (user_id, label) :: rest => user_id :: label :: pairWords rest

/-- `VectorStore::save_mappings_unlocked` (vector_store.h:475-495) as 64-bit
words: `u64 num_elements = next_label_`, then the first `num_elements`
entries of `label_to_id_`, then `(u64 user_id, u64 label)` for every entry
of `id_to_label_`. -/
def save_mappings_words (s : VectorStore) : List Nat :=
  s.next_label :: (s.label_to_id.take s.next_label ++ pairWords s.id_to_label)

/-- The read loop of `load_mappings` (vector_store.h:609-616): read `n`
`(user_id, label)` pairs and assign `id_to_label_[user_id] = label` for each.
A read past the end of the file leaves the C++ variable unspecified; the
model reads `0` (irrelevant for well-formed files, whose length matches). -/
def readPairsLoop (m : List (Nat × Nat)) : Nat → List Nat → List (Nat × Nat)
  | 0, _ => m
  | n + 1, ws => readPairsLoop (mapInsert m (ws.getD 0 0) (ws.getD 1 0)) n (ws.drop 2)

/-- `VectorStore::load_mappings` (vector_store.h:589-619).  A file whose
element count reads as zero (including an unreadable header) is rejected;
otherwise `label_to_id_` is resized to `num_elements` and filled from the
file (missing entries keep the `0` left by `resize`), the forward map is
rebuilt from the pairs, and `next_label_ := num_elements`. -/
def load_mappings (s : VectorStore) (words : List Nat) : Except String VectorStore :=
  let num := words.headD 0
  let rest := words.tail
  if num = 0 then
    .error "Label to id vector seems to be empty."
  else
    .ok { s with
      label_to_id := rest.take num ++ List.replicate (num - (rest.take num).length) 0
      id_to_label := readPairsLoop [] num (rest.drop num)
      next_label := num }

/-- The three artifacts written by `save_index` (vector_store.h:422-429):
the index blob (opaque to this layer), `.hnsw.map`, `.hnsw.meta`. -/
structure SavedArtifacts where
  indexBlob : List (Nat × List ℚ)
  mapWords : List Nat
  metaBytes : List Nat
deriving DecidableEq

/-- `VectorStore::save_index` (vector_store.h:422-429): saves the index
blob, then the mappings, then the metadata. -/
def save_index (s : VectorStore) (pad : List Nat) : SavedArtifacts where
  indexBlob := s.index_elems
  mapWords := save_mappings_words s
  metaBytes := save_metadata_bytes s pad

/-- The loading constructor `VectorStore(const std::string&)`
(vector_store.h:163-181): `load_index_metadata`, construct the index,
`index_->loadIndex` (the external library round-trips its own blob, modelled
as the identity on the element list), then `load_mappings`. -/
def loadStore (metaBytes : List Nat) (indexBlob : List (Nat × List ℚ))
    (mapWords : List Nat) : Except String VectorStore :=
  let mf := load_index_metadata metaBytes
  let s0 : VectorStore :=
    { dim := mf.dim
      max_elements := mf.max_elements
      M := mf.M
      ef_construction := mf.ef_construction
      ef := mf.ef
      allow_replace_deleted := mf.allow_replace_deleted
      id_to_label := []
      label_to_id := []
      next_label := 0
      current_resized_label_vec_size := mf.current_resized_label_vec_size
      index_elems := indexBlob
      oob := false }
  load_mappings s0 mapWords

/-! ## Invariants and specification-side functions -/

/-- The bijection invariant of the mapping table (spec §3): every forward
entry points into the reverse table at a position below `next_label_`, the
reverse table holds the user id there, and `next_label_` counts the accepted
vectors (= the index's element count). -/
def MappingInvariant (s : VectorStore) : Prop :=
  (∀ p ∈ s.id_to_label, p.2 < s.next_label ∧ s.label_to_id[p.2]? = some p.1) ∧
  s.next_label = s.index_elems.length

instance (s : VectorStore) : Decidable (MappingInvariant s) := by
  unfold MappingInvariant; infer_instance

/-- Consistency of a store state as maintained by the validated operations:
the reverse table covers all allocated labels, the forward map has exactly
one entry per accepted vector with pairwise-distinct keys, and the
configuration fields fit their declared C++ widths. -/
def WellFormed (s : VectorStore) : Prop :=
  s.next_label ≤ s.label_to_id.length ∧
  s.id_to_label.length = s.next_label ∧
  s.id_to_label.Pairwise (fun p q => p.1 ≠ q.1) ∧
  s.dim < 2 ^ 32 ∧ s.max_elements < 2 ^ 32 ∧ s.M < 2 ^ 32 ∧
  s.ef_construction < 2 ^ 32 ∧ s.ef < 2 ^ 32 ∧
  s.current_resized_label_vec_size < 2 ^ 64

instance (s : VectorStore) : Decidable (WellFormed s) := by
  unfold WellFormed; infer_instance

/-- Specification of the sequential validation filter of the validated batch
path: an item is accepted iff, at the moment it is processed, its user id is
not yet bound and its vector has the store dimension.  (Only the KEYS of the
accumulating map matter, so accepted ids are recorded with a dummy label.) -/
def seqAccepted (dim : Nat) (m : List (Nat × Nat)) : List (Nat × List ℚ) → List Nat
  | [] => []
  | (user_id, vec) :: rest =>
    if (mapFind m user_id).isSome ∨ vec.length ≠ dim then
      seqAccepted dim m rest
    else
      user_id :: seqAccepted dim (mapInsert m user_id 0) rest

/-- `n` pairwise-distinct consecutive user ids starting at `a`, each with the
same vector: a batch of fresh, valid items. -/
def freshBatch (a n : Nat) (vec : List ℚ) : List (Nat × List ℚ) :=
  match n with
  | 0 => []
  | n + 1 => (a, vec) :: freshBatch (a + 1) n vec

/-- A store reached from a fresh store by one accepted `add_vector`: its
reverse table has 1000 slots and `next_label_ = 1`. -/
def seedStore : VectorStore :=
  (add_vector (mkVectorStore 1 4096) 0 [(1 : ℚ)] false).2

/-- A 2-dimensional store holding one vector under user id 99. -/
def c5store : VectorStore :=
  (add_vector (mkVectorStore 2 64) 99 [5, 5] false).2

/-- A 6-item batch for `c5store` whose items 2 (duplicate user id 99) and
5 (vector of length 1 ≠ 2) are invalid. -/
def c5batch : List (Nat × List ℚ) :=
  [(10, [1, 1]), (99, [2, 2]), (11, [3, 3]), (12, [4, 4]), (13, [9]), (14, [6, 6])]

/-- A small well-formed store with two accepted vectors, used as a concrete
input for the round-trip and error-handling claims. -/
def wStore : VectorStore where
  dim := 2
  max_elements := 16
  M := 16
  ef_construction := 200
  ef := 10
  allow_replace_deleted := true
  id_to_label := [(5, 0), (9, 1)]
  label_to_id := [5, 9, 0]
  next_label := 2
  current_resized_label_vec_size := 1000
  index_elems := [(1, [3, 4]), (0, [1, 2])]
  oob := false

/-- A store holding one vector under user id 5 at label 0, with a reverse
table of exactly one slot (the shape produced by `load_mappings` on a
single-entry file). -/
def tightStore : VectorStore where
  dim := 2
  max_elements := 16
  M := 16
  ef_construction := 200
  ef := 10
  allow_replace_deleted := true
  id_to_label := [(5, 0)]
  label_to_id := [5]
  next_label := 1
  current_resized_label_vec_size := 1000
  index_elems := [(0, [1, 2])]
  oob := false

/-! ## Helper lemmas: association list -/

theorem mapFind_filter_ne (a k : Nat) :
    ∀ m : List (Nat × Nat), a ≠ k →
      mapFind (m.filter (fun p => p.1 ≠ a)) k = mapFind m k := by
  intro m hak
  induction m with
  | nil => rfl
  | cons x rest ih =>
    obtain ⟨u, v⟩ := x
    rw [List.filter_cons]
    by_cases hu : u = a
    · rw [if_neg (by simp [hu])]
      rw [ih]
      have huk : u ≠ k := by rw [hu]; exact hak
      simp [mapFind, huk]
    · rw [if_pos (by simp [hu])]
      simp only [mapFind, ih]

theorem mapFind_mapInsert (m : List (Nat × Nat)) (k v k' : Nat) :
    mapFind (mapInsert m k v) k' = if k = k' then some v else mapFind m k' := by
  by_cases h : k = k'
  · simp [mapInsert, mapFind, h]
  · simp only [mapInsert, mapFind, if_neg h]
    exact mapFind_filter_ne k k' m h

theorem mapFind_mapInsert_self (m : List (Nat × Nat)) (k v : Nat) :
    mapFind (mapInsert m k v) k = some v := by
  simp [mapFind_mapInsert]

theorem mapFind_mapInsert_ne (m : List (Nat × Nat)) (k v k' : Nat) (h : k ≠ k') :
    mapFind (mapInsert m k v) k' = mapFind m k' := by
  simp [mapFind_mapInsert, h]

theorem mapFind_mem {m : List (Nat × Nat)} {k v : Nat} :
    mapFind m k = some v → (k, v) ∈ m := by
  induction m with
  | nil => intro h; cases h
  | cons x rest ih =>
    obtain ⟨u, w⟩ := x
    simp only [mapFind]
    by_cases hu : u = k
    · subst hu
      rw [if_pos rfl]
      intro h
      cases h
      exact List.mem_cons_self _ _
    · rw [if_neg hu]
      intro h
      exact List.mem_cons_of_mem _ (ih h)

theorem mapFind_eq_none {m : List (Nat × Nat)} {k : Nat}
    (h : ∀ p ∈ m, p.1 ≠ k) : mapFind m k = none := by
  induction m with
  | nil => rfl
  | cons x rest ih =>
    simp only [mapFind]
    rw [if_neg (h x (List.mem_cons_self _ _))]
    exact ih (fun p hp => h p (List.mem_cons_of_mem _ hp))

theorem mapInsert_fresh {m : List (Nat × Nat)} {k : Nat} (v : Nat)
    (h : ∀ p ∈ m, p.1 ≠ k) : mapInsert m k v = (k, v) :: m := by
  unfold mapInsert
  rw [List.filter_eq_self.mpr]
  intro p hp
  simpa using h p hp

/-! ## Helper lemmas: reverse table -/

theorem getElem?_lt {l : List Nat} {n a : Nat} (h : l[n]? = some a) :
    n < l.length := by
  by_cases hl : n < l.length
  · exact hl
  · rw [List.getElem?_eq_none (Nat.le_of_not_lt hl)] at h; cases h

theorem resizeVec_length {v : List Nat} {n : Nat} (h : v.length ≤ n) :
    (resizeVec v n).length = n := by
  unfold resizeVec
  by_cases hn : n ≤ v.length
  · rw [if_pos hn, List.length_take]; omega
  · rw [if_neg hn, List.length_append, List.length_replicate]; omega

theorem resizeVec_getElem?_frozen {v : List Nat} {n i : Nat}
    (hi : i < v.length) (h : v.length ≤ n) : (resizeVec v n)[i]? = v[i]? := by
  unfold resizeVec
  by_cases hn : n ≤ v.length
  · rw [if_pos hn, Nat.le_antisymm hn h, List.take_length]
  · rw [if_neg hn, List.getElem?_append_left hi]

/-! ## Helper lemmas: the batch loop on fresh valid items -/

/-- Running the batch loop (validated, no index failures) on `n` fresh,
pairwise-distinct, well-dimensioned items: every item commits, the reverse
table's size never changes inside the loop, and an out-of-range
reverse-table write happens exactly when the allocated labels reach the
table's size. -/
theorem batchLoop_fresh (vec : List ℚ) (n : Nat) :
    ∀ (a i : Nat) (s : VectorStore) (acc : List Nat),
      vec.length = s.dim →
      (∀ p ∈ s.id_to_label, p.1 < a) →
      s.next_label + n ≤ s.max_elements →
      ∃ r : VectorStore × List Nat,
        batchLoop true (fun _ => false) (fun _ => false) i s acc (freshBatch a n vec) = r ∧
        r.1.next_label = s.next_label + n ∧
        r.1.label_to_id.length = s.label_to_id.length ∧
        r.1.oob = (s.oob ||
          decide (0 < n ∧ s.label_to_id.length < s.next_label + n)) ∧
        r.1.index_elems.length = s.index_elems.length + n ∧
        (∀ k v, mapFind s.id_to_label k = some v → mapFind r.1.id_to_label k = some v) ∧
        (0 < n → mapFind r.1.id_to_label (a + n - 1) = some (s.next_label + n - 1)) := by
  induction n with
  | zero =>
    intro a i s acc hdim hkeys hcap
    refine ⟨(s, acc), by simp [freshBatch, batchLoop], by simp, rfl, by simp,
      by simp, fun k v h => h, fun h => absurd h (Nat.lt_irrefl 0)⟩
  | succ n ih =>
    intro a i s acc hdim hkeys hcap
    have hcapne : ¬ s.max_elements ≤ s.next_label := by omega
    have hkeysne : ∀ p ∈ s.id_to_label, p.1 ≠ a := fun p hp => Nat.ne_of_lt (hkeys p hp)
    have hfind : mapFind s.id_to_label a = none := mapFind_eq_none hkeysne
    have hinsEq : mapInsert s.id_to_label a s.next_label = (a, s.next_label) :: s.id_to_label :=
      mapInsert_fresh _ hkeysne
    have step : batchLoop true (fun _ => false) (fun _ => false) i s acc
          (freshBatch a (n + 1) vec)
        = batchLoop true (fun _ => false) (fun _ => false) (i + 1)
            { s with
              index_elems := (s.next_label, vec) :: s.index_elems
              id_to_label := (a, s.next_label) :: s.id_to_label
              label_to_id := s.label_to_id.set s.next_label a
              oob := s.oob || decide (s.label_to_id.length ≤ s.next_label)
              next_label := s.next_label + 1 }
            (acc ++ [a]) (freshBatch (a + 1) n vec) := by
      simp [freshBatch, batchLoop, setReverse, hcapne, hfind, hdim, hinsEq]
    rw [step]
    obtain ⟨r, hr, hnext, hlen, hoob, hidx, hpres, hlast⟩ :=
      ih (a + 1) (i + 1)
        { s with
          index_elems := (s.next_label, vec) :: s.index_elems
          id_to_label := (a, s.next_label) :: s.id_to_label
          label_to_id := s.label_to_id.set s.next_label a
          oob := s.oob || decide (s.label_to_id.length ≤ s.next_label)
          next_label := s.next_label + 1 }
        (acc ++ [a]) hdim
        (by
          intro p hp
          rcases List.mem_cons.mp hp with h | h
          · subst h; exact Nat.lt_succ_self a
          · exact Nat.lt_succ_of_lt (hkeys p h))
        (by dsimp only; omega)
    dsimp only at hnext hlen hoob hidx hpres hlast
    rw [List.length_set] at hlen
    simp only [List.length_set, List.length_cons] at hoob hidx
    refine ⟨r, hr, by omega, hlen, ?_, by omega, ?_, ?_⟩
    · rw [hoob, Bool.or_assoc]
      congr 1
      rw [← Bool.decide_or]
      exact decide_eq_decide.mpr (by omega)
    · intro k v hk
      apply hpres
      have hka : ¬ a = k := by
        have := hkeys _ (mapFind_mem hk)
        omega
      simp only [mapFind, if_neg hka]
      exact hk
    · intro _
      rcases Nat.eq_zero_or_pos n with hn | hn
      · subst hn
        have e1 : a + 1 - 1 = a := by omega
        have e2 : s.next_label + 1 - 1 = s.next_label := by omega
        rw [e1, e2]
        apply hpres
        simp [mapFind]
      · have h := hlast hn
        have e1 : a + 1 + n - 1 = a + (n + 1) - 1 := by omega
        have e2 : s.next_label + 1 + n - 1 = s.next_label + (n + 1) - 1 := by omega
        rw [e1, e2] at h
        exact h

/-- Facts about `seedStore`, the state reached by one accepted `add_vector`
on a fresh store: one label allocated, reverse table grown to 1000 slots,
forward map `{0 ↦ 0}`, no out-of-range access so far. -/
theorem seedStore_facts :
    seedStore.next_label = 1 ∧
    seedStore.label_to_id.length = 1000 ∧
    seedStore.oob = false ∧
    seedStore.dim = 1 ∧
    seedStore.max_elements = 4096 ∧
    seedStore.id_to_label = [(0, 0)] ∧
    seedStore.index_elems.length = 1 := by
  decide

/-! ## Helper lemmas: the commit sequence shared by `add_vector` and the
batch loop (index insert, forward-map entry, reverse-table entry, label
increment), written out as a single record update -/

theorem commit_fields (s : VectorStore) (user_id : Nat) (vec : List ℚ) :
    ({ (setReverse
        ({ ({ s with index_elems := (s.next_label, vec) :: s.index_elems })
            with id_to_label := mapInsert s.id_to_label user_id s.next_label })
        s.next_label user_id) with
      next_label := s.next_label + 1 } : VectorStore) =
    { s with
      index_elems := (s.next_label, vec) :: s.index_elems
      id_to_label := mapInsert s.id_to_label user_id s.next_label
      label_to_id := s.label_to_id.set s.next_label user_id
      oob := s.oob || decide (s.label_to_id.length ≤ s.next_label)
      next_label := s.next_label + 1 } := rfl

theorem commit_mapping_invariant {s : VectorStore} (user_id : Nat) (vec : List ℚ)
    (hinv : MappingInvariant s) (ht : s.next_label < s.label_to_id.length) :
    MappingInvariant
      { s with
        index_elems := (s.next_label, vec) :: s.index_elems
        id_to_label := mapInsert s.id_to_label user_id s.next_label
        label_to_id := s.label_to_id.set s.next_label user_id
        oob := s.oob || decide (s.label_to_id.length ≤ s.next_label)
        next_label := s.next_label + 1 } := by
  obtain ⟨hmap, hcount⟩ := hinv
  constructor
  · intro p hp
    simp only [mapInsert] at hp
    rcases List.mem_cons.mp hp with hp | hp
    · subst hp
      exact ⟨Nat.lt_succ_self _, List.getElem?_set_eq_of_lt user_id ht⟩
    · have hp' := List.mem_of_mem_filter hp
      obtain ⟨hlt, hget⟩ := hmap p hp'
      refine ⟨Nat.lt_succ_of_lt hlt, ?_⟩
      rw [List.getElem?_set_ne (Nat.ne_of_gt hlt) , hget]
  · simpa using hcount


/-! ## Claim theorems -/

/-- C8: `try_add_vector_batch` grows the reverse table only at entry and only
when `next_label_ ≥ label_to_id_.size()`; from `seedStore` (where
`next_label_ = 1 < 1000 = label_to_id_.size()`, so no entry resize happens),
a batch of 1000 fresh valid items allocates labels `1..1000`, and the commit
`label_to_id_[next_label_] = user_id` for label 1000 indexes at the table's
size: the ghost out-of-range flag is raised while the table's size is
unchanged by the loop. -/
theorem c8_batch_reverse_table_out_of_range :
    seedStore.next_label < seedStore.label_to_id.length ∧
    seedStore.oob = false ∧
    (try_add_vector_batch seedStore (freshBatch 1 1000 [(1 : ℚ)]) true
        (fun _ => false) (fun _ => false)).1.oob = true ∧
    (try_add_vector_batch seedStore (freshBatch 1 1000 [(1 : ℚ)]) true
        (fun _ => false) (fun _ => false)).1.label_to_id.length
      = seedStore.label_to_id.length := by
  obtain ⟨h1, h2, h3, h4, h5, h6, h7⟩ := seedStore_facts
  have hne : (freshBatch 1 1000 [(1 : ℚ)]).isEmpty = false := rfl
  have hresize : ¬ (seedStore.label_to_id.length ≤ seedStore.next_label) := by
    rw [h1, h2]; omega
  obtain ⟨r, hr, hnext, hlen, hoob, hidx, hpres, hlast⟩ :=
    batchLoop_fresh [(1 : ℚ)] 1000 1 0 seedStore []
      (by simp [h4])
      (by rw [h6]; decide)
      (by rw [h1, h5]; omega)
  have hunfold : try_add_vector_batch seedStore (freshBatch 1 1000 [(1 : ℚ)]) true
      (fun _ => false) (fun _ => false) = r := by
    rw [try_add_vector_batch]
    simp only [hne, Bool.false_eq_true, if_false]
    rw [if_neg hresize]
    exact hr
  refine ⟨by rw [h1, h2]; omega, h3, ?_, ?_⟩
  · rw [hunfold, hoob, h2, h1, h3]
    decide
  · rw [hunfold, hlen]

/-- C1 (counterexample): the bijection invariant holds in `seedStore`, yet
after a completed `try_add_vector_batch` call adding 1000 fresh valid items
it is broken: the forward map binds user id 1000 to label 1000, but the
reverse table (still 1000 entries long, since the loop never grows it) has
no position 1000. -/
theorem c1_counterexample :
    MappingInvariant seedStore ∧
    ¬ MappingInvariant (try_add_vector_batch seedStore (freshBatch 1 1000 [(1 : ℚ)]) true
        (fun _ => false) (fun _ => false)).1 := by
  obtain ⟨h1, h2, h3, h4, h5, h6, h7⟩ := seedStore_facts
  have hne : (freshBatch 1 1000 [(1 : ℚ)]).isEmpty = false := rfl
  have hresize : ¬ (seedStore.label_to_id.length ≤ seedStore.next_label) := by
    rw [h1, h2]; omega
  obtain ⟨r, hr, hnext, hlen, hoob, hidx, hpres, hlast⟩ :=
    batchLoop_fresh [(1 : ℚ)] 1000 1 0 seedStore []
      (by simp [h4])
      (by rw [h6]; decide)
      (by rw [h1, h5]; omega)
  have hunfold : try_add_vector_batch seedStore (freshBatch 1 1000 [(1 : ℚ)]) true
      (fun _ => false) (fun _ => false) = r := by
    rw [try_add_vector_batch]
    simp only [hne, Bool.false_eq_true, if_false]
    rw [if_neg hresize]
    exact hr
  refine ⟨by decide, ?_⟩
  rw [hunfold]
  intro hinv
  have hfind := hlast (by omega)
  have e1 : 1 + 1000 - 1 = 1000 := by omega
  rw [e1, h1] at hfind
  have hentry : ((1000 : Nat), (1 + 1000 - 1 : Nat)) ∈ r.1.id_to_label := mapFind_mem hfind
  obtain ⟨-, hget⟩ := hinv.1 _ hentry
  have hlt : (1 + 1000 - 1 : Nat) < r.1.label_to_id.length := getElem?_lt hget
  rw [hlen, h2] at hlt
  omega

/-! ## Helper lemmas: invariant preservation -/

/-- If the batch loop finishes with the ghost out-of-range flag clear, it was
clear when the loop started (the flag is never reset). -/
theorem batchLoop_oob_false (validate : Bool) (insF rszF : Nat → Bool) :
    ∀ (items : List (Nat × List ℚ)) (i : Nat) (s : VectorStore) (acc : List Nat),
      (batchLoop validate insF rszF i s acc items).1.oob = false →
      s.oob = false := by
  intro items
  induction items with
  | nil => intro i s acc h; simpa [batchLoop] using h
  | cons x rest ih =>
    intro i s acc h
    obtain ⟨uid, vec⟩ := x
    by_cases hcap : s.max_elements ≤ s.next_label
    · simp only [batchLoop, hcap, true_and, if_true] at h
      rcases hrs : rszF i with hf | ht
      · rw [hrs] at h
        simp only [Bool.false_eq_true, if_false] at h
        split at h
        · have h2 := ih _ _ _ h; exact h2
        · split at h
          · have h2 := ih _ _ _ h; exact h2
          · have h' := ih _ _ _ h
            simp only [setReverse] at h'
            exact (Bool.or_eq_false_iff.mp h').1
      · rw [hrs] at h
        simpa using h
    · simp only [batchLoop, hcap, false_and, if_false] at h
      split at h
      · exact ih _ _ _ h
      · split at h
        · exact ih _ _ _ h
        · have h' := ih _ _ _ h
          simp only [setReverse] at h'
          exact (Bool.or_eq_false_iff.mp h').1

/-- When a batch-loop run completes with the ghost out-of-range flag still
clear, the bijection invariant is preserved: every commit wrote its
reverse-table entry in range. -/
theorem batchLoop_preserves_invariant (validate : Bool) (insF rszF : Nat → Bool) :
    ∀ (items : List (Nat × List ℚ)) (i : Nat) (s : VectorStore) (acc : List Nat),
      MappingInvariant s →
      ∀ r : VectorStore × List Nat,
        batchLoop validate insF rszF i s acc items = r →
        r.1.oob = false →
        MappingInvariant r.1 := by
  intro items
  induction items with
  | nil =>
    intro i s acc hinv r hr _
    simp only [batchLoop] at hr
    rw [← hr]
    exact hinv
  | cons x rest ih =>
    intro i s acc hinv r hr hoob
    obtain ⟨uid, vec⟩ := x
    by_cases hcap : s.max_elements ≤ s.next_label
    · simp only [batchLoop, hcap, true_and, if_true, setReverse] at hr
      have hinv1 : MappingInvariant { s with max_elements := s.max_elements * 2 } := hinv
      split at hr
      · rw [← hr]; exact hinv
      · split at hr
        · exact ih _ _ _ hinv1 r hr hoob
        · split at hr
          · exact ih _ _ _ hinv1 r hr hoob
          · have hoob2 := hoob
            rw [← hr] at hoob2
            have h5 := batchLoop_oob_false validate insF rszF rest _ _ _ hoob2
            simp only [Bool.or_eq_false_iff, decide_eq_false_iff_not] at h5
            exact ih _ _ _
              (commit_mapping_invariant uid vec hinv1 (Nat.lt_of_not_le h5.2)) r hr hoob
    · simp only [batchLoop, hcap, false_and, if_false, setReverse] at hr
      split at hr
      · exact ih _ _ _ hinv r hr hoob
      · split at hr
        · exact ih _ _ _ hinv r hr hoob
        · have hoob2 := hoob
          rw [← hr] at hoob2
          have h5 := batchLoop_oob_false validate insF rszF rest _ _ _ hoob2
          simp only [Bool.or_eq_false_iff, decide_eq_false_iff_not] at h5
          exact ih _ _ _
            (commit_mapping_invariant uid vec hinv (Nat.lt_of_not_le h5.2)) r hr hoob

/-- Extending the reverse table preserves the bijection invariant. -/
theorem resize_entry_invariant {s : VectorStore} (n : Nat) (h : MappingInvariant s)
    (hn : s.label_to_id.length ≤ n) :
    MappingInvariant { s with label_to_id := resizeVec s.label_to_id n } := by
  obtain ⟨hmap, hcount⟩ := h
  refine ⟨?_, hcount⟩
  intro p hp
  obtain ⟨hlt, hget⟩ := hmap p hp
  exact ⟨hlt, by rw [resizeVec_getElem?_frozen (getElem?_lt hget) hn]; exact hget⟩

/-- A fresh store satisfies the bijection invariant. -/
theorem mkVectorStore_invariant (d m : Nat) : MappingInvariant (mkVectorStore d m) := by
  constructor
  · intro p hp; simp [mkVectorStore] at hp
  · rfl

/-- `add_vector` preserves the bijection invariant, whatever its outcome:
validation failures return before any mutation, an index failure leaves only
the (invariant-irrelevant) capacity and reverse-table sizes changed, and a
successful commit always writes its reverse-table entry in range because
`add_vector` grows the table before every insert that needs it. -/
theorem add_vector_preserves_invariant (s : VectorStore) (uid : Nat) (vec : List ℚ)
    (f : Bool) (h : MappingInvariant s) : MappingInvariant (add_vector s uid vec f).2 := by
  have hL : 0 < LABEL_RESERVE_INCREMENT_SIZE := by decide
  simp only [add_vector]
  split
  · exact h
  · split
    · exact h
    · by_cases hcap : s.max_elements ≤ s.next_label <;>
        simp only [hcap, if_true, if_false]
      · have hinv1 : MappingInvariant { s with max_elements := s.max_elements * 2 } := h
        by_cases hres : s.label_to_id.length ≤ s.next_label <;>
          simp only [hres, if_true, if_false]
        · have hlen2 : (resizeVec s.label_to_id
              (s.next_label + LABEL_RESERVE_INCREMENT_SIZE)).length
              = s.next_label + LABEL_RESERVE_INCREMENT_SIZE :=
            resizeVec_length (le_trans hres (Nat.le_add_right _ _))
          have hinv2 : MappingInvariant { s with max_elements := s.max_elements * 2, label_to_id := resizeVec s.label_to_id (s.next_label + LABEL_RESERVE_INCREMENT_SIZE) } :=
            resize_entry_invariant _ hinv1 (le_trans hres (Nat.le_add_right _ _))
          split
          · exact hinv2
          · exact commit_mapping_invariant uid vec hinv2
              (show s.next_label < (resizeVec s.label_to_id
                  (s.next_label + LABEL_RESERVE_INCREMENT_SIZE)).length by
                rw [hlen2]; omega)
        · split
          · exact hinv1
          · exact commit_mapping_invariant uid vec hinv1 (Nat.lt_of_not_le hres)
      · by_cases hres : s.label_to_id.length ≤ s.next_label <;>
          simp only [hres, if_true, if_false]
        · have hlen2 : (resizeVec s.label_to_id
              (s.next_label + LABEL_RESERVE_INCREMENT_SIZE)).length
              = s.next_label + LABEL_RESERVE_INCREMENT_SIZE :=
            resizeVec_length (le_trans hres (Nat.le_add_right _ _))
          have hinv2 : MappingInvariant { s with label_to_id := resizeVec s.label_to_id (s.next_label + LABEL_RESERVE_INCREMENT_SIZE) } :=
            resize_entry_invariant _ h (le_trans hres (Nat.le_add_right _ _))
          split
          · exact hinv2
          · exact commit_mapping_invariant uid vec hinv2
              (show s.next_label < (resizeVec s.label_to_id
                  (s.next_label + LABEL_RESERVE_INCREMENT_SIZE)).length by
                rw [hlen2]; omega)
        · split
          · exact h
          · exact commit_mapping_invariant uid vec h (Nat.lt_of_not_le hres)

/-- `try_add_vector_batch` preserves the bijection invariant whenever the
call performs no out-of-range reverse-table write. -/
theorem try_add_vector_batch_preserves_invariant (s : VectorStore)
    (batch : List (Nat × List ℚ)) (validate : Bool) (insF rszF : Nat → Bool)
    (hinv : MappingInvariant s)
    (hoob : (try_add_vector_batch s batch validate insF rszF).1.oob = false) :
    MappingInvariant (try_add_vector_batch s batch validate insF rszF).1 := by
  rcases batch with _ | ⟨p, rest⟩
  · simpa [try_add_vector_batch] using hinv
  · revert hoob
    simp only [try_add_vector_batch, List.isEmpty_cons, Bool.false_eq_true, if_false]
    by_cases hres : s.label_to_id.length ≤ s.next_label
    · rw [if_pos hres]
      intro hoob
      exact batchLoop_preserves_invariant _ _ _ _ _ _ _
        (resize_entry_invariant _ hinv (by omega)) _ rfl hoob
    · rw [if_neg hres]
      intro hoob
      exact batchLoop_preserves_invariant _ _ _ _ _ _ _ hinv _ rfl hoob

/-- C1 (amended): the bijection invariant — every forward entry `(id, label)`
has `label < next_label_` and `label_to_id_[label] = id`, and `next_label_`
equals the accepted-vector count — holds after construction, after every
completed `add_vector` call, and after every completed `try_add_vector_batch`
call that performs no out-of-range reverse-table write (the out-of-range
case is the counterexample `c1_counterexample`). -/
theorem c1_mapping_invariant_amended (d m uid : Nat) (vec : List ℚ) (f : Bool)
    (s : VectorStore) (batch : List (Nat × List ℚ)) (validate : Bool)
    (insF rszF : Nat → Bool)
    (hinv : MappingInvariant s)
    (hoob : (try_add_vector_batch s batch validate insF rszF).1.oob = false) :
    MappingInvariant (mkVectorStore d m) ∧
    MappingInvariant (add_vector s uid vec f).2 ∧
    MappingInvariant (try_add_vector_batch s batch validate insF rszF).1 :=
  ⟨mkVectorStore_invariant d m, add_vector_preserves_invariant s uid vec f hinv,
    try_add_vector_batch_preserves_invariant s batch validate insF rszF hinv hoob⟩

/-- Witness for `c1_mapping_invariant_amended` at a concrete store, vector
and batch. -/
theorem c1_mapping_invariant_amended_witness :
    MappingInvariant wStore ∧
    (try_add_vector_batch wStore [(7, [1, 2])] true
      (fun _ => false) (fun _ => false)).1.oob = false ∧
    (MappingInvariant (mkVectorStore 3 50) ∧
     MappingInvariant (add_vector wStore 8 [5, 6] false).2 ∧
     MappingInvariant (try_add_vector_batch wStore [(7, [1, 2])] true
       (fun _ => false) (fun _ => false)).1) :=
  ⟨by decide, by decide,
    c1_mapping_invariant_amended 3 50 8 [5, 6] false wStore [(7, [1, 2])] true
      (fun _ => false) (fun _ => false) (by decide) (by decide)⟩

/-- C4: a failed `add_vector` validation is side-effect free and the error
kind is exact: with a wrong-length vector the call fails with the
dimension-mismatch error, with a correct-length vector and an already-bound
user id it fails with the duplicate-identifier error, and in both cases the
returned state is exactly the state before the call (forward map, reverse
table, `next_label_`, index element count — all fields). -/
theorem c4_validation_failures_atomic (s : VectorStore) (uid : Nat) (vec : List ℚ)
    (f : Bool)
    (h : vec.length ≠ s.dim ∨ (mapFind s.id_to_label uid).isSome = true) :
    (add_vector s uid vec f).2 = s ∧
    ((add_vector s uid vec f).1 = .dimensionMismatch ↔ vec.length ≠ s.dim) ∧
    ((add_vector s uid vec f).1 = .duplicateIdentifier ↔
      vec.length = s.dim ∧ (mapFind s.id_to_label uid).isSome = true) := by
  by_cases hd : vec.length = s.dim
  · rcases h with h | h
    · exact absurd hd h
    · have hcall : add_vector s uid vec f = (.duplicateIdentifier, s) := by
        unfold add_vector
        rw [if_neg (by simpa using hd), if_pos h]
      rw [hcall]
      refine ⟨rfl, ?_, ?_⟩ <;> simp [hd, h]
  · have hcall : add_vector s uid vec f = (.dimensionMismatch, s) := by
      unfold add_vector
      rw [if_pos hd]
    rw [hcall]
    refine ⟨rfl, ?_, ?_⟩ <;> simp [hd]

/-- Witness for `c4_validation_failures_atomic`: adding the already-present
user id 5 to `wStore` (and the conclusion instantiated there). -/
theorem c4_validation_failures_atomic_witness :
    (([(3 : ℚ), 4] : List ℚ).length ≠ wStore.dim ∨
      (mapFind wStore.id_to_label 5).isSome = true) ∧
    ((add_vector wStore 5 [3, 4] false).2 = wStore ∧
     ((add_vector wStore 5 [3, 4] false).1 = .dimensionMismatch ↔
        ([(3 : ℚ), 4] : List ℚ).length ≠ wStore.dim) ∧
     ((add_vector wStore 5 [3, 4] false).1 = .duplicateIdentifier ↔
        ([(3 : ℚ), 4] : List ℚ).length = wStore.dim ∧
          (mapFind wStore.id_to_label 5).isSome = true)) :=
  ⟨Or.inr (by decide),
    c4_validation_failures_atomic wStore 5 [3, 4] false (Or.inr (by decide))⟩

/-- C6: if the index insert (`addPoint`) for an individual batch item raises,
only that item is skipped: the loop continues with the rest of the batch from
a state whose forward map, reverse table, `next_label_`, index elements and
out-of-range flag are unchanged (only the capacity may have been doubled by
the auto-resize that precedes the insert), and the accumulated result list is
unchanged, so the failed item never appears in the returned list and no label
is consumed. -/
theorem c6_item_error_containment (validate : Bool) (insF rszF : Nat → Bool)
    (i : Nat) (s : VectorStore) (acc : List Nat) (uid : Nat) (vec : List ℚ)
    (rest : List (Nat × List ℚ))
    (hfail : insF i = true)
    (hnobreak : ¬ (s.max_elements ≤ s.next_label ∧ rszF i = true)) :
    ∃ s1 : VectorStore,
      batchLoop validate insF rszF i s acc ((uid, vec) :: rest)
        = batchLoop validate insF rszF (i + 1) s1 acc rest ∧
      s1.id_to_label = s.id_to_label ∧
      s1.label_to_id = s.label_to_id ∧
      s1.next_label = s.next_label ∧
      s1.index_elems = s.index_elems ∧
      s1.oob = s.oob := by
  refine ⟨if s.max_elements ≤ s.next_label
    then { s with max_elements := s.max_elements * 2 } else s,
    ?_, ?_, ?_, ?_, ?_, ?_⟩
  · simp only [batchLoop]
    rw [if_neg hnobreak]
    by_cases hcap : s.max_elements ≤ s.next_label <;>
      simp only [hcap, if_true, if_false]
    · split <;> rfl
    · split <;> rfl
  · split <;> rfl
  · split <;> rfl
  · split <;> rfl
  · split <;> rfl
  · split <;> rfl

/-- Witness for `c6_item_error_containment`: a concrete loop state in which
the insert for the current item (position 0) raises. -/
theorem c6_item_error_containment_witness :
    ((fun _ : Nat => true) 0 = true ∧
      ¬ (wStore.max_elements ≤ wStore.next_label ∧ (fun _ : Nat => false) 0 = true)) ∧
    ∃ s1 : VectorStore,
      batchLoop true (fun _ => true) (fun _ => false) 0 wStore [] [(3, [1, 1]), (4, [2, 2])]
        = batchLoop true (fun _ => true) (fun _ => false) 1 s1 [] [(4, [2, 2])] ∧
      s1.id_to_label = wStore.id_to_label ∧
      s1.label_to_id = wStore.label_to_id ∧
      s1.next_label = wStore.next_label ∧
      s1.index_elems = wStore.index_elems ∧
      s1.oob = wStore.oob :=
  ⟨⟨rfl, by decide⟩,
    c6_item_error_containment true (fun _ => true) (fun _ => false) 0 wStore []
      3 [1, 1] [(4, [2, 2])] rfl (by decide)⟩

/-- C7: on the unvalidated path, a batch item whose user id 5 is already
bound (at label 0) is committed anyway: the result list reports it, the
forward map now binds 5 to the new label 1, the old reverse-table slot 0
still holds 5, `next_label_` advanced to 2 (still counting the old vector),
and the index holds both elements (the old one orphaned). -/
theorem c7_unvalidated_batch_overwrite :
    mapFind tightStore.id_to_label 5 = some 0 ∧
    (try_add_vector_batch tightStore [(5, [7, 8])] false
        (fun _ => false) (fun _ => false)).2 = [5] ∧
    mapFind (try_add_vector_batch tightStore [(5, [7, 8])] false
        (fun _ => false) (fun _ => false)).1.id_to_label 5 = some 1 ∧
    (try_add_vector_batch tightStore [(5, [7, 8])] false
        (fun _ => false) (fun _ => false)).1.label_to_id[0]? = some 5 ∧
    (try_add_vector_batch tightStore [(5, [7, 8])] false
        (fun _ => false) (fun _ => false)).1.next_label = 2 ∧
    (try_add_vector_batch tightStore [(5, [7, 8])] false
        (fun _ => false) (fun _ => false)).1.index_elems.length = 2 := by
  decide

/-! ## Helper lemmas: the validated batch path refines sequential validation -/

/-- The sequential-validation filter only depends on which keys are bound,
not on the labels they are bound to. -/
theorem seqAccepted_congr (d : Nat) :
    ∀ (items : List (Nat × List ℚ)) (m m' : List (Nat × Nat)),
      (∀ k, (mapFind m k).isSome = (mapFind m' k).isSome) →
      seqAccepted d m items = seqAccepted d m' items := by
  intro items
  induction items with
  | nil => intro m m' _; rfl
  | cons x rest ih =>
    intro m m' h
    obtain ⟨uid, vec⟩ := x
    simp only [seqAccepted]
    by_cases hc : (mapFind m uid).isSome = true ∨ vec.length ≠ d
    · have hc' : (mapFind m' uid).isSome = true ∨ vec.length ≠ d := by
        rw [← h uid]; exact hc
      rw [if_pos hc, if_pos hc']
      exact ih m m' h
    · have hc' : ¬ ((mapFind m' uid).isSome = true ∨ vec.length ≠ d) := by
        rw [← h uid]; exact hc
      rw [if_neg hc, if_neg hc']
      have hins : ∀ k, (mapFind (mapInsert m uid 0) k).isSome
          = (mapFind (mapInsert m' uid 0) k).isSome := by
        intro k
        rw [mapFind_mapInsert, mapFind_mapInsert]
        split <;> first | rfl | exact h k
      rw [ih _ _ hins]

/-- The validated batch loop with no index/resize failures commits exactly
the items accepted by the sequential-validation filter, in order, and makes
exactly one index insert per accepted item. -/
theorem batchLoop_validated_refines :
    ∀ (items : List (Nat × List ℚ)) (i : Nat) (s : VectorStore) (acc : List Nat)
      (r : VectorStore × List Nat),
      batchLoop true (fun _ => false) (fun _ => false) i s acc items = r →
      r.2 = acc ++ seqAccepted s.dim s.id_to_label items ∧
      r.1.index_elems.length
        = s.index_elems.length + (seqAccepted s.dim s.id_to_label items).length := by
  intro items
  induction items with
  | nil =>
    intro i s acc r hr
    simp only [batchLoop] at hr
    rw [← hr]
    simp [seqAccepted]
  | cons x rest ih =>
    intro i s acc r hr
    obtain ⟨uid, vec⟩ := x
    by_cases hcap : s.max_elements ≤ s.next_label <;>
      simp only [batchLoop, hcap, true_and, false_and, and_false, if_true, if_false,
        Bool.false_eq_true, setReverse] at hr
    · split at hr
      next hval =>
        have hC : (mapFind s.id_to_label uid).isSome = true ∨ vec.length ≠ s.dim := by
          simpa using hval
        obtain ⟨h1, h2⟩ := ih _ _ _ r hr
        simp only [seqAccepted]
        rw [if_pos hC]
        exact ⟨h1, h2⟩
      next hval =>
        have hC : ¬ ((mapFind s.id_to_label uid).isSome = true ∨ vec.length ≠ s.dim) := by
          simpa using hval
        obtain ⟨h1, h2⟩ := ih _ _ _ r hr
        have h1' : r.2 = (acc ++ [uid])
            ++ seqAccepted s.dim (mapInsert s.id_to_label uid s.next_label) rest := h1
        have h2' : r.1.index_elems.length = s.index_elems.length + 1
            + (seqAccepted s.dim (mapInsert s.id_to_label uid s.next_label) rest).length := h2
        have hcong : seqAccepted s.dim (mapInsert s.id_to_label uid s.next_label) rest
            = seqAccepted s.dim (mapInsert s.id_to_label uid 0) rest := by
          apply seqAccepted_congr
          intro k
          rw [mapFind_mapInsert, mapFind_mapInsert]
          split <;> rfl
        rw [hcong] at h1' h2'
        simp only [seqAccepted]
        rw [if_neg hC]
        constructor
        · rw [h1', List.append_assoc]
          rfl
        · rw [h2', List.length_cons]
          omega
    · split at hr
      next hval =>
        have hC : (mapFind s.id_to_label uid).isSome = true ∨ vec.length ≠ s.dim := by
          simpa using hval
        obtain ⟨h1, h2⟩ := ih _ _ _ r hr
        simp only [seqAccepted]
        rw [if_pos hC]
        exact ⟨h1, h2⟩
      next hval =>
        have hC : ¬ ((mapFind s.id_to_label uid).isSome = true ∨ vec.length ≠ s.dim) := by
          simpa using hval
        obtain ⟨h1, h2⟩ := ih _ _ _ r hr
        have h1' : r.2 = (acc ++ [uid])
            ++ seqAccepted s.dim (mapInsert s.id_to_label uid s.next_label) rest := h1
        have h2' : r.1.index_elems.length = s.index_elems.length + 1
            + (seqAccepted s.dim (mapInsert s.id_to_label uid s.next_label) rest).length := h2
        have hcong : seqAccepted s.dim (mapInsert s.id_to_label uid s.next_label) rest
            = seqAccepted s.dim (mapInsert s.id_to_label uid 0) rest := by
          apply seqAccepted_congr
          intro k
          rw [mapFind_mapInsert, mapFind_mapInsert]
          split <;> rfl
        rw [hcong] at h1' h2'
        simp only [seqAccepted]
        rw [if_neg hC]
        constructor
        · rw [h1', List.append_assoc]
          rfl
        · rw [h2', List.length_cons]
          omega

/-- C5: with validation enabled and a failure-free index, the returned list
of `try_add_vector_batch` is exactly the sequential-validation filter of the
batch — an item is excluded iff its user id is already bound when it is
processed or its vector length differs from the store dimension — and the
index element count grows by exactly the number of accepted items; in
particular, for the 6-item batch `c5batch` on `c5store` whose items 2
(duplicate id 99) and 5 (wrong dimension, id 13) are invalid, the result is
the other four ids in order, has length 4, and the element count grows by
exactly 4. -/
theorem c5_validated_batch_partial_success (s : VectorStore)
    (batch : List (Nat × List ℚ)) :
    ((try_add_vector_batch s batch true (fun _ => false) (fun _ => false)).2
        = seqAccepted s.dim s.id_to_label batch ∧
      (try_add_vector_batch s batch true
          (fun _ => false) (fun _ => false)).1.index_elems.length
        = s.index_elems.length + (seqAccepted s.dim s.id_to_label batch).length) ∧
    ((try_add_vector_batch c5store c5batch true (fun _ => false) (fun _ => false)).2
        = [10, 11, 12, 14] ∧
      (try_add_vector_batch c5store c5batch true
          (fun _ => false) (fun _ => false)).2.length = 4 ∧
      (99 : Nat) ∉ (try_add_vector_batch c5store c5batch true
          (fun _ => false) (fun _ => false)).2 ∧
      (13 : Nat) ∉ (try_add_vector_batch c5store c5batch true
          (fun _ => false) (fun _ => false)).2 ∧
      (try_add_vector_batch c5store c5batch true
          (fun _ => false) (fun _ => false)).1.index_elems.length
        = c5store.index_elems.length + 4) := by
  constructor
  · rcases batch with _ | ⟨p, rest⟩
    · simp [try_add_vector_batch, seqAccepted]
    · simp only [try_add_vector_batch, List.isEmpty_cons, Bool.false_eq_true, if_false]
      by_cases hres : s.label_to_id.length ≤ s.next_label
      · rw [if_pos hres]
        obtain ⟨h1, h2⟩ := batchLoop_validated_refines (p :: rest) 0 _ [] _ rfl
        simp only [List.nil_append] at h1
        exact ⟨h1, h2⟩
      · rw [if_neg hres]
        obtain ⟨h1, h2⟩ := batchLoop_validated_refines (p :: rest) 0 _ [] _ rfl
        simp only [List.nil_append] at h1
        exact ⟨h1, h2⟩
  · decide

/-! ## Helper lemmas: search-result translation -/

/-- The ids and distances produced by the translation loop, pointwise:
`user_id` is `label_to_id_[label]` and `distance` is the truncation of the
index's distance, in the index's order. -/
theorem translateKnn_maps (s : VectorStore) :
    ∀ knn : List (Nat × ℚ),
      ((translateKnn s knn).1).map (fun r => r.distance)
        = knn.map (fun p => ratToUInt64 p.2) ∧
      ((translateKnn s knn).1).map (fun r => r.user_id)
        = knn.map (fun p => s.label_to_id.getD p.1 0) := by
  intro knn
  induction knn with
  | nil => exact ⟨rfl, rfl⟩
  | cons p rest ih =>
    obtain ⟨label, dist⟩ := p
    simp only [translateKnn, List.map_cons]
    exact ⟨by rw [ih.1], by rw [ih.2]⟩

/-- On a nonempty knn result, the translation after `cleanMappings` always
reads the (empty) reverse table out of range. -/
theorem translateKnn_clean_oob (s : VectorStore) :
    ∀ knn : List (Nat × ℚ), knn ≠ [] →
      (translateKnn (cleanMappings s) knn).2 = true := by
  intro knn hne
  cases knn with
  | nil => exact absurd rfl hne
  | cons p rest =>
    obtain ⟨label, dist⟩ := p
    simp [translateKnn, cleanMappings]

/-- C9: after `cleanMappings` the reverse table is empty and `next_label_`
is 0, but the index still answers queries; every `search_vectors` call that
receives at least one neighbour from the index therefore reads
`label_to_id_[label]` at a position at or beyond the table's size — the call
still returns a result list, with the ghost out-of-range flag raised. -/
theorem c9_search_after_clean_out_of_range (s : VectorStore) (query : List ℚ)
    (knn : List (Nat × ℚ)) (hdim : query.length = s.dim) (hne : knn ≠ []) :
    ∃ res : List SearchResult,
      search_vectors (cleanMappings s) query knn = .ok (res, true) := by
  refine ⟨(translateKnn (cleanMappings s) knn).1, ?_⟩
  unfold search_vectors
  rw [if_neg (by simp [cleanMappings, hdim])]
  have h2 := translateKnn_clean_oob s knn hne
  rw [← h2]

/-- Witness for `c9_search_after_clean_out_of_range` on a concrete store and
a single-neighbour knn answer. -/
theorem c9_search_after_clean_out_of_range_witness :
    ([(0 : ℚ), 0] : List ℚ).length = wStore.dim ∧
    ([((0 : Nat), (1 : ℚ) / 2)] : List (Nat × ℚ)) ≠ [] ∧
    ∃ res : List SearchResult,
      search_vectors (cleanMappings wStore) [0, 0] [(0, 1 / 2)] = .ok (res, true) :=
  ⟨by decide, by decide,
    c9_search_after_clean_out_of_range wStore [0, 0] [(0, 1 / 2)] (by decide) (by decide)⟩

/-- C10: `SearchResult.distance` is a `uint64_t` assigned from the index's
floating-point distance, so every distance `search_vectors` returns is the
integer truncation (`ratToUInt64`) of the index's distance — any true
distance in `[0, 1)` is reported as `0` — while the ids keep the index's
closest-first order. -/
theorem c10_distance_truncation (s : VectorStore) (query : List ℚ)
    (knn : List (Nat × ℚ)) (hdim : query.length = s.dim) :
    ∃ (res : List SearchResult) (flag : Bool),
      search_vectors s query knn = .ok (res, flag) ∧
      res.map (fun r => r.distance) = knn.map (fun p => ratToUInt64 p.2) ∧
      res.map (fun r => r.user_id) = knn.map (fun p => s.label_to_id.getD p.1 0) ∧
      ∀ q : ℚ, 0 ≤ q → q < 1 → ratToUInt64 q = 0 := by
  refine ⟨(translateKnn s knn).1, (translateKnn s knn).2, ?_, (translateKnn_maps s knn).1,
    (translateKnn_maps s knn).2, ?_⟩
  · unfold search_vectors
    rw [if_neg (by simp [hdim])]
  · intro q h0 h1
    unfold ratToUInt64
    rw [Int.floor_eq_zero_iff.mpr ⟨h0, h1⟩]
    rfl

/-- Witness for `c10_distance_truncation` on a concrete store and knn
answer with a fractional and a sub-1 distance. -/
theorem c10_distance_truncation_witness :
    ([(0 : ℚ), 0] : List ℚ).length = wStore.dim ∧
    (∃ (res : List SearchResult) (flag : Bool),
      search_vectors wStore [0, 0] [((0 : Nat), (3 : ℚ) / 2), ((1 : Nat), (1 : ℚ) / 2)]
          = .ok (res, flag) ∧
      res.map (fun r => r.distance)
          = [((0 : Nat), (3 : ℚ) / 2), ((1 : Nat), (1 : ℚ) / 2)].map
              (fun p => ratToUInt64 p.2) ∧
      res.map (fun r => r.user_id)
          = [((0 : Nat), (3 : ℚ) / 2), ((1 : Nat), (1 : ℚ) / 2)].map
              (fun p => wStore.label_to_id.getD p.1 0) ∧
      ∀ q : ℚ, 0 ≤ q → q < 1 → ratToUInt64 q = 0) :=
  ⟨by decide,
    c10_distance_truncation wStore [0, 0] [(0, 3 / 2), (1, 1 / 2)] (by decide)⟩

/-- C3 (code bug): the `.hnsw.meta` artifact does NOT have the layout
`u64 dim, u64 max_elements, u64 M, u64 ef_construction, u64 ef, ...`.
Each `write(..., sizeof(uint64_t))` call emits 8 bytes starting at a 4-byte
`int` field, so adjacent fields are interleaved: for the default store with
`dim = 128` and `max_elements = 10000`, the first u64 of the file is
`128 + 10000·2^32`, not 128, and the fifth u64 is `10 + 2^32` (the `ef`
value 10 with the `allow_replace_deleted` byte bleeding into it), not 10. -/
theorem c3_metadata_layout_interleaved :
    readLE64 (save_metadata_bytes (mkVectorStore 128 10000) [0, 0, 0])
      = 128 + 10000 * 4294967296 ∧
    readLE64 (save_metadata_bytes (mkVectorStore 128 10000) [0, 0, 0]) ≠ 128 ∧
    readLE64 (List.drop 8 (save_metadata_bytes (mkVectorStore 128 10000) [0, 0, 0]))
      = 10000 + 16 * 4294967296 ∧
    readLE64 (List.drop 32 (save_metadata_bytes (mkVectorStore 128 10000) [0, 0, 0]))
      = 10 + 4294967296 ∧
    readLE64 (List.drop 32 (save_metadata_bytes (mkVectorStore 128 10000) [0, 0, 0]))
      ≠ 10 := by
  decide

/-! ## Helper lemmas: persistence round trip -/

/-- The overlap-reads of `load_index_metadata` exactly undo the
overlap-writes of `save_metadata_unlocked`: every configuration field that
fits its declared width is recovered, padding bytes notwithstanding. -/
theorem load_save_metadata (s : VectorStore) (p1 p2 p3 : Nat)
    (hdim : s.dim < 4294967296) (hmax : s.max_elements < 4294967296)
    (hM : s.M < 4294967296) (hefc : s.ef_construction < 4294967296)
    (hef : s.ef < 4294967296)
    (hcur : s.current_resized_label_vec_size < 18446744073709551616) :
    load_index_metadata (save_metadata_bytes s [p1, p2, p3]) =
      ⟨s.dim, s.max_elements, s.M, s.ef_construction, s.ef,
        s.allow_replace_deleted, s.current_resized_label_vec_size⟩ := by
  cases hb : s.allow_replace_deleted <;>
    simp only [save_metadata_bytes, le32, le64, boolByte, hb, if_true, if_false,
      List.cons_append, List.nil_append, load_index_metadata,
      List.drop_succ_cons, List.drop_zero, List.getD_cons_zero, List.getD_cons_succ,
      readLE32, readLE64, MetaFields.mk.injEq, bne_iff_ne, ne_eq] <;>
    refine ⟨by omega, by omega, by omega, by omega, by omega, by simp, by omega⟩

/-- The pair-read loop of `load_mappings` rebuilds the forward map by
folding `id_to_label_[user_id] = label` over the saved entries. -/
theorem readPairsLoop_pairWords :
    ∀ (m : List (Nat × Nat)) (acc : List (Nat × Nat)),
      readPairsLoop acc m.length (pairWords m)
        = List.foldl (fun mm p => mapInsert mm p.1 p.2) acc m := by
  intro m
  induction m with
  | nil => intro acc; rfl
  | cons p rest ih =>
    intro acc
    obtain ⟨u, l⟩ := p
    simp only [pairWords, List.length_cons, readPairsLoop, List.foldl_cons,
      List.getD_cons_zero, List.getD_cons_succ, List.drop_succ_cons, List.drop_zero]
    exact ih _

/-- Keys absent from the entry list are looked up in the accumulator. -/
theorem mapFind_foldl_insert_of_none :
    ∀ (m : List (Nat × Nat)) (acc : List (Nat × Nat)) (k : Nat),
      mapFind m k = none →
      mapFind (List.foldl (fun mm p => mapInsert mm p.1 p.2) acc m) k = mapFind acc k := by
  intro m
  induction m with
  | nil => intro acc k _; rfl
  | cons p rest ih =>
    intro acc k hk
    obtain ⟨u, l⟩ := p
    simp only [mapFind] at hk
    by_cases hu : u = k
    · rw [if_pos hu] at hk; cases hk
    · rw [if_neg hu] at hk
      simp only [List.foldl_cons]
      rw [ih _ _ hk, mapFind_mapInsert_ne _ _ _ _ hu]

/-- With pairwise-distinct keys, folding the inserts recovers each entry. -/
theorem mapFind_foldl_insert_of_some :
    ∀ (m : List (Nat × Nat)) (acc : List (Nat × Nat)) (k v : Nat),
      m.Pairwise (fun p q => p.1 ≠ q.1) →
      mapFind m k = some v →
      mapFind (List.foldl (fun mm p => mapInsert mm p.1 p.2) acc m) k = some v := by
  intro m
  induction m with
  | nil => intro acc k v _ hk; cases hk
  | cons p rest ih =>
    intro acc k v hnd hk
    obtain ⟨u, l⟩ := p
    simp only [mapFind] at hk
    rw [List.pairwise_cons] at hnd
    obtain ⟨hhead, htail⟩ := hnd
    by_cases hu : u = k
    · rw [if_pos hu] at hk
      cases hk
      have hrest : mapFind rest k = none := by
        apply mapFind_eq_none
        intro q hq
        have h2 := hhead q hq
        rw [← hu]
        exact fun he => h2 he.symm
      simp only [List.foldl_cons]
      rw [mapFind_foldl_insert_of_none rest _ k hrest]
      rw [← hu]
      exact mapFind_mapInsert_self _ _ _
    · rw [if_neg hu] at hk
      simp only [List.foldl_cons]
      exact ih _ _ _ htail hk

/-- Translating a knn answer whose labels are all allocated gives the same
results in a store whose reverse table is the allocated prefix of the
original's. -/
theorem translateKnn_take (s s2 : VectorStore)
    (hl : s2.label_to_id = s.label_to_id.take s.next_label)
    (hlen : s.next_label ≤ s.label_to_id.length) :
    ∀ knn : List (Nat × ℚ), (∀ p ∈ knn, p.1 < s.next_label) →
      translateKnn s2 knn = translateKnn s knn := by
  intro knn
  induction knn with
  | nil => intro _; rfl
  | cons p rest ih =>
    intro h
    obtain ⟨label, dist⟩ := p
    have hp : label < s.next_label := h _ (List.mem_cons_self _ _)
    have htail := ih (fun q hq => h q (List.mem_cons_of_mem _ hq))
    have hgd : s2.label_to_id.getD label 0 = s.label_to_id.getD label 0 := by
      rw [hl, List.getD_eq_getElem?_getD, List.getD_eq_getElem?_getD,
        List.getElem?_take_of_lt hp]
    have hoob : (decide (s2.label_to_id.length ≤ label) : Bool)
        = decide (s.label_to_id.length ≤ label) := by
      have h1 : ¬ (s2.label_to_id.length ≤ label) := by
        rw [hl, List.length_take]; omega
      have h2 : ¬ (s.label_to_id.length ≤ label) := by omega
      rw [decide_eq_false h1, decide_eq_false h2]
    simp only [translateKnn, htail, hgd, hoob]

/-- C2: saving a well-formed store holding at least one accepted vector and
reconstructing a store from the saved artifacts through the loading
constructor succeeds and yields a store with the same element count, the
same `next_label_`, the same configuration, the same
`user_id → label` mapping (extensionally), and — since the index blob and
the allocated reverse-table prefix round-trip — identical `search_vectors`
output (same user ids, same order, same distances) for every query and every
knn answer of the (identical) index. -/
theorem c2_save_reload_roundtrip (s : VectorStore) (p1 p2 p3 : Nat)
    (hwf : WellFormed s) (hN : 1 ≤ s.next_label) :
    ∃ s2 : VectorStore,
      loadStore (save_index s [p1, p2, p3]).metaBytes
          (save_index s [p1, p2, p3]).indexBlob
          (save_index s [p1, p2, p3]).mapWords = Except.ok s2 ∧
      s2.index_elems.length = s.index_elems.length ∧
      s2.next_label = s.next_label ∧
      s2.dim = s.dim ∧ s2.max_elements = s.max_elements ∧ s2.M = s.M ∧
      s2.ef_construction = s.ef_construction ∧ s2.ef = s.ef ∧
      (∀ id : Nat, mapFind s2.id_to_label id = mapFind s.id_to_label id) ∧
      (∀ (query : List ℚ) (knn : List (Nat × ℚ)),
        (∀ p ∈ knn, p.1 < s.next_label) →
        search_vectors s2 query knn = search_vectors s query knn) := by
  obtain ⟨hw1, hw2, hw3, hw4, hw5, hw6, hw7, hw8, hw9⟩ := hwf
  have hmeta := load_save_metadata s p1 p2 p3 hw4 hw5 hw6 hw7 hw8 hw9
  have htake_len : (s.label_to_id.take s.next_label).length = s.next_label := by
    rw [List.length_take]; omega
  have htake : (s.label_to_id.take s.next_label ++ pairWords s.id_to_label).take
      s.next_label = s.label_to_id.take s.next_label := by
    nth_rewrite 1 [← htake_len]
    exact List.take_left _ _
  have hdrop : (s.label_to_id.take s.next_label ++ pairWords s.id_to_label).drop
      s.next_label = pairWords s.id_to_label := by
    nth_rewrite 1 [← htake_len]
    exact List.drop_left _ _
  refine ⟨{ dim := s.dim
            max_elements := s.max_elements
            M := s.M
            ef_construction := s.ef_construction
            ef := s.ef
            allow_replace_deleted := s.allow_replace_deleted
            id_to_label := List.foldl (fun mm p => mapInsert mm p.1 p.2) [] s.id_to_label
            label_to_id := s.label_to_id.take s.next_label
            next_label := s.next_label
            current_resized_label_vec_size := s.current_resized_label_vec_size
            index_elems := s.index_elems
            oob := false },
    ?_, rfl, rfl, rfl, rfl, rfl, rfl, rfl, ?_, ?_⟩
  · simp only [save_index, loadStore]
    rw [hmeta]
    simp only [load_mappings, save_mappings_words, List.headD_cons, List.tail_cons]
    rw [if_neg (by omega)]
    rw [htake, htake_len, Nat.sub_self, List.replicate_zero, List.append_nil]
    rw [hdrop]
    nth_rewrite 1 [← hw2]
    rw [readPairsLoop_pairWords s.id_to_label []]
  · intro id
    rcases hfind : mapFind s.id_to_label id with _ | v
    · rw [mapFind_foldl_insert_of_none _ _ _ hfind]
      rfl
    · exact mapFind_foldl_insert_of_some _ _ _ _ hw3 hfind
  · intro query knn hknn
    have ht := translateKnn_take s
      { dim := s.dim, max_elements := s.max_elements, M := s.M,
        ef_construction := s.ef_construction, ef := s.ef,
        allow_replace_deleted := s.allow_replace_deleted,
        id_to_label := List.foldl (fun mm p => mapInsert mm p.1 p.2) [] s.id_to_label,
        label_to_id := s.label_to_id.take s.next_label,
        next_label := s.next_label,
        current_resized_label_vec_size := s.current_resized_label_vec_size,
        index_elems := s.index_elems, oob := false }
      rfl hw1 knn hknn
    simp only [search_vectors]
    rw [ht]

/-- Witness for `c2_save_reload_roundtrip` at the concrete two-vector store
`wStore`. -/
theorem c2_save_reload_roundtrip_witness :
    WellFormed wStore ∧ 1 ≤ wStore.next_label ∧
    (∃ s2 : VectorStore,
      loadStore (save_index wStore [0, 0, 0]).metaBytes
          (save_index wStore [0, 0, 0]).indexBlob
          (save_index wStore [0, 0, 0]).mapWords = Except.ok s2 ∧
      s2.index_elems.length = wStore.index_elems.length ∧
      s2.next_label = wStore.next_label ∧
      s2.dim = wStore.dim ∧ s2.max_elements = wStore.max_elements ∧
      s2.M = wStore.M ∧
      s2.ef_construction = wStore.ef_construction ∧ s2.ef = wStore.ef ∧
      (∀ id : Nat, mapFind s2.id_to_label id = mapFind wStore.id_to_label id) ∧
      (∀ (query : List ℚ) (knn : List (Nat × ℚ)),
        (∀ p ∈ knn, p.1 < wStore.next_label) →
        search_vectors s2 query knn = search_vectors wStore query knn)) :=
  ⟨by decide, by decide, c2_save_reload_roundtrip wStore 0 0 0 (by decide) (by decide)⟩
